import Mathlib

/-!
Verification development for the compose-manifest generator
(`ramalama/compose.py`).  The Python class `Compose` is embedded shallowly:
each method becomes a Lean function, the configuration object becomes a
structure, environmental reads (`os.path.exists`, `get_accel_env_vars`,
`version`) become explicit parameters, and the one fallible operation
(`str.split("=", 1)` tuple unpacking in `_gen_environment`) is reflected in
an `Except` result for `generate`.
-/

namespace RamalamaCompose

/-! ### Python string / list primitives used by the source -/

/-- Does the char list `s` begin with `p`?  (Python `str.startswith`.) -/
def listStartsWith : List Char → List Char → Bool
  | _, [] => true
  | [], _ :: _ => false
  | c :: cs, p :: ps => c == p && listStartsWith cs ps

/-- Python `s.startswith(p)` on strings. -/
def pyStartsWith (s p : String) : Bool :=
  listStartsWith s.toList p.toList

/-- Python `s.removeprefix(p)` : drop `p` from the front of `s` when it is
present, otherwise return `s` unchanged. -/
def pyRemoveStart (s p : String) : String :=
  if pyStartsWith s p then String.mk (s.toList.drop p.toList.length) else s

/-- Split a char list at the first occurrence of `sep`, returning the parts
before and after it; `none` when `sep` does not occur. -/
def splitFirstChar (sep : Char) : List Char → Option (List Char × List Char)
  | [] => none
  | c :: cs =>
    if c == sep then some ([], cs)
    else (splitFirstChar sep cs).map (fun p => (c :: p.1, p.2))

/-- Python `s.split(sep, maxsplit)` for a one-character separator: split at
most `maxsplit` times, left to right. -/
def splitCharLimit (sep : Char) : Nat → List Char → List (List Char)
  | 0, cs => [cs]
  | m + 1, cs =>
    match splitFirstChar sep cs with
    | none => [cs]
    | some (a, b) => a :: splitCharLimit sep m b

/-- Python `e.split("=", 1)` followed by the 2-tuple unpacking
`key, val = ...`: succeeds with the parts around the first `=`, fails
(`ValueError`) when there is no `=` at all. -/
def splitEqOnce (s : String) : Option (String × String) :=
  (splitFirstChar '=' s.toList).map (fun p => (String.mk p.1, String.mk p.2))

/-- Does `needle` occur as a contiguous substring of `hay`?
(Python `needle in hay`.) -/
def hasSubChars : List Char → List Char → Bool
  | hay, needle =>
    listStartsWith hay needle ||
      match hay with
      | [] => false
      | _ :: t => hasSubChars t needle

/-- Python `pat in s` substring test on strings. -/
def containsSub (s pat : String) : Bool :=
  hasSubChars s.toList pat.toList

/-- Truthiness of an optional Python string (`None` and `""` are falsy). -/
def optStrTruthy (o : Option String) : Bool :=
  o.getD "" ≠ ""

/-- Truthiness of an optional Python list (`None` and `[]` are falsy). -/
def optListTruthy (o : Option (List String)) : Bool :=
  o.getD [] ≠ []

/-- The characters Python's `str.strip()` removes (ASCII whitespace; the
manifest text is ASCII). -/
def pyIsSpace (c : Char) : Bool :=
  c == ' ' || c == '\t' || c == '\n' || c == '\r' || c == '\x0b' || c == '\x0c'

/-- A line survives the generator's cleanup pass iff `line.strip()` is
non-empty, i.e. iff it has at least one non-whitespace character. -/
def keepLine (l : List Char) : Bool :=
  l.any (fun c => !(pyIsSpace c))

/-- Split a char list into lines at `'\n'` (the generator's template only
uses `'\n'` newlines; models `str.splitlines`). -/
def splitLines : List Char → List (List Char)
  | [] => [[]]
  | c :: rest =>
    if c = '\n' then [] :: splitLines rest
    else
      match splitLines rest with
      | [] => [[c]]
      | l :: ls => (c :: l) :: ls

/-- Join lines with `'\n'` (models `"\n".join`). -/
def joinLines : List (List Char) → List Char
  | [] => []
  | [l] => l
  | l :: ls => l ++ '\n' :: joinLines ls

/-- The generator's cleanup pass:
`"\n".join(line for line in content.splitlines() if line.strip())`. -/
def cleanupLines (s : String) : String :=
  String.mk (joinLines ((splitLines s.toList).filter keepLine))

/-! ### shlex model

`shlex.join` / `shlex.quote` are CPython standard-library code, not part of
this repository.  Modelled from the spec: tokens are joined with single
spaces after shell-safe quoting (`quote` leaves a non-empty all-safe token
alone and otherwise wraps it in single quotes, rewriting every embedded
single quote to the five-character escape).  `shellSplit` below models the
POSIX shell word-splitting rules the spec's round-trip property refers to. -/

/-- The characters CPython's `shlex.quote` considers safe:
ASCII word characters and `@ % + = : , .` slash and dash. -/
def shlexSafeChar (c : Char) : Bool :=
  c.isAlpha || c.isDigit || c == '_' || c == '@' || c == '%' || c == '+' ||
    c == '=' || c == ':' || c == ',' || c == '.' || c == '/' || c == '-'

/-- Rewrite of one character by `s.replace("'", "'\"'\"'")`. -/
def quoteRepl (c : Char) : List Char :=
  if c = '\'' then ['\'', '"', '\'', '"', '\''] else [c]

/-- Application of `s.replace("'", "'\"'\"'")` to a char list. -/
def quoteBody : List Char → List Char
  | [] => []
  | c :: cs => quoteRepl c ++ quoteBody cs

/-- CPython `shlex.quote` over a char list. -/
def shlexQuoteChars (s : List Char) : List Char :=
  if s = [] then ['\'', '\'']
  else if s.all shlexSafeChar then s
  else '\'' :: quoteBody s ++ ['\'']

/-- Join words with single spaces (`" ".join`). -/
def joinWords : List (List Char) → List Char
  | [] => []
  | [w] => w
  | w :: ws => w ++ ' ' :: joinWords ws

/-- CPython `shlex.join`: quote every token and join with spaces. -/
def shlexJoin (ts : List String) : String :=
  String.mk (joinWords (ts.map (fun t => shlexQuoteChars t.toList)))

/-- Lexer mode of the shell word splitter. -/
inductive SMode where
  | norm
  | single
  | double
  | escNorm
  | escDouble
deriving DecidableEq, Repr

/-- State of the shell word splitter: current mode, the word accumulated so
far, whether a word has started (quotes start a word even if it stays
empty), and the words already emitted. -/
structure SState where
  mode : SMode
  cur : List Char
  started : Bool
  acc : List (List Char)
deriving DecidableEq, Repr

/-- One character of POSIX shell word splitting. -/
def stepChar (st : SState) (c : Char) : SState :=
  match st.mode with
  | SMode.norm =>
    if c = ' ' ∨ c = '\t' ∨ c = '\n' then
      if st.started then
        { mode := SMode.norm, cur := [], started := false, acc := st.acc ++ [st.cur] }
      else st
    else if c = '\'' then { st with mode := SMode.single, started := true }
    else if c = '"' then { st with mode := SMode.double, started := true }
    else if c = '\\' then { st with mode := SMode.escNorm, started := true }
    else { st with cur := st.cur ++ [c], started := true }
  | SMode.single =>
    if c = '\'' then { st with mode := SMode.norm }
    else { st with cur := st.cur ++ [c] }
  | SMode.double =>
    if c = '"' then { st with mode := SMode.norm }
    else if c = '\\' then { st with mode := SMode.escDouble }
    else { st with cur := st.cur ++ [c] }
  | SMode.escNorm => { st with mode := SMode.norm, cur := st.cur ++ [c] }
  | SMode.escDouble =>
    if c = '"' ∨ c = '\\' then { st with mode := SMode.double, cur := st.cur ++ [c] }
    else { st with mode := SMode.double, cur := st.cur ++ ['\\', c] }

/-- Run the splitter over a char list. -/
def runSplit (st : SState) : List Char → SState
  | [] => st
  | c :: cs => runSplit (stepChar st c) cs

/-- Flush the pending word (if one has started) at end of input. -/
def finishSplit (st : SState) : List (List Char) :=
  if st.started then st.acc ++ [st.cur] else st.acc

/-- Modelled from the spec: re-parsing a command string "with
shell-word-splitting rules" — POSIX word splitting over whitespace with
single-quote, double-quote and backslash handling (CPython
`shlex.split(s, posix=True)`; an unterminated quotation, which cannot arise
from `shlexJoin` output, is flushed rather than raised). -/
def shellSplit (s : String) : List String :=
  (finishSplit (runSplit ⟨SMode.norm, [], false, []⟩ s.toList)).map String.mk

/-! ### The configuration object and the `Compose` class -/

/-- The fields of the CLI argument object that `Compose` reads
(`args.name`, `args.image`, `args.rag`, `args.port`, `args.env`);
`none` models a missing/`None` attribute. -/
structure ComposeArgs where
  name : Option String
  image : String
  rag : Option String
  port : Option String
  env : Option (List String)
deriving DecidableEq, Repr

/-- The state `Compose.__init__` builds. -/
structure Compose where
  src_model_path : String
  dest_model_path : String
  src_chat_template_path : String
  dest_chat_template_path : String
  src_mmproj_path : String
  dest_mmproj_path : String
  model_name : String
  name : String
  args : ComposeArgs
  exec_args : List String
  image : String
deriving DecidableEq, Repr

/-- Embeds `Compose.__init__`: destructure the path pairs (absent optional pairs
become `("", "")`), strip a leading `oci://` from the model source path,
and resolve the service name (`args.name` if truthy, else
`ramalama-<model_name>`). -/
def Compose.make (model_name : String) (model_paths : String × String)
    (chat_template_paths : Option (String × String))
    (mmproj_paths : Option (String × String))
    (args : ComposeArgs) (exec_args : List String) : Compose :=
  let src_model_path := model_paths.1
  let dest_model_path := model_paths.2
  let chat := chat_template_paths.getD ("", "")
  let mm := mmproj_paths.getD ("", "")
  { src_model_path := pyRemoveStart src_model_path "oci://"
    dest_model_path := dest_model_path
    src_chat_template_path := chat.1
    dest_chat_template_path := chat.2
    src_mmproj_path := mm.1
    dest_mmproj_path := mm.2
    model_name := model_name
    name := if optStrTruthy args.name then args.name.getD "" else "ramalama-" ++ model_name
    args := args
    exec_args := exec_args
    image := args.image }

/-- Modelled from the spec: `RAG_DIR`, the fixed well-known in-container
retrieval-corpus target directory (imported from `ramalama.common`, which is
outside the excerpt). -/
def RAG_DIR : String := "/rag"

/-- Embeds `Compose._gen_model_volume`. -/
def Compose.genModelVolume (c : Compose) : String :=
  "\n      - \"" ++ c.src_model_path ++ ":" ++ c.dest_model_path ++ ":ro\""

/-- Embeds `Compose._gen_rag_volume`; `fs` models `os.path.exists`. -/
def Compose.genRagVolume (fs : String → Bool) (c : Compose) : String :=
  let rag_source := c.args.rag.getD ""
  if pyStartsWith rag_source "oci:" then
    let oci_image := pyRemoveStart rag_source "oci:"
    "\n      - type: image\n        source: " ++ oci_image ++
      "\n        target: " ++ RAG_DIR ++
      "\n        image:\n          readonly: true"
  else if fs rag_source then
    "\n      - \"" ++ rag_source ++ ":" ++ RAG_DIR ++ ":ro\""
  else ""

/-- Embeds `Compose._gen_chat_template_volume`. -/
def Compose.genChatTemplateVolume (c : Compose) : String :=
  "\n      - \"" ++ c.src_chat_template_path ++ ":" ++ c.dest_chat_template_path ++ ":ro\""

/-- Embeds `Compose._gen_mmproj_volume`. -/
def Compose.genMmprojVolume (c : Compose) : String :=
  "\n      - \"" ++ c.src_mmproj_path ++ ":" ++ c.dest_mmproj_path ++ ":ro\""

/-- The volume entries `_gen_volumes` appends after the `volumes:` heading,
in source order: the model mount always, the RAG mount when `args.rag` is
truthy, the chat-template and mmproj mounts when their source path is
truthy and exists on the host. -/
def Compose.volumeEntries (fs : String → Bool) (c : Compose) : List String :=
  [c.genModelVolume]
    ++ (if optStrTruthy c.args.rag then [c.genRagVolume fs] else [])
    ++ (if c.src_chat_template_path ≠ "" ∧ fs c.src_chat_template_path then
          [c.genChatTemplateVolume] else [])
    ++ (if c.src_mmproj_path ≠ "" ∧ fs c.src_mmproj_path then
          [c.genMmprojVolume] else [])

/-- Embeds `Compose._gen_volumes`: the heading plus the concatenated entries. -/
def Compose.genVolumes (fs : String → Bool) (c : Compose) : String :=
  "    volumes:" ++ String.join (c.volumeEntries fs)

/-- Embeds `Compose._gen_devices`: probe the three fixed host device paths and emit
a passthrough entry for each that exists; empty string when none do. -/
def genDevices (fs : String → Bool) : String :=
  let device_list := ["/dev/dri", "/dev/kfd", "/dev/accel"].filter fs
  if device_list = [] then ""
  else device_list.foldl (fun s dev => s ++ "\n      - \"" ++ dev ++ ":" ++ dev ++ "\"") "    devices:"

/-- Embeds `Compose._gen_ports`. -/
def Compose.genPorts (c : Compose) : String :=
  let port_arg := c.args.port.getD ""
  if port_arg = "" then "    ports:\n      - \"8080:8080\""
  else
    let p := (splitCharLimit ':' 2 port_arg.toList).map String.mk
    let host_port := if p.length > 1 then p.getD 1 "" else p.getD 0 ""
    let container_port := p.getD 0 ""
    "    ports:\n      - \"" ++ host_port ++ ":" ++ container_port ++ "\""

/-- Python dict assignment `env_vars[key] = val` on an insertion-ordered
association list: replace the value in place when the key is present,
append a new entry otherwise. -/
def updateAssoc : List (String × String) → String → String → List (String × String)
  | [], k, v => [(k, v)]
  | (k', v') :: rest, k, v =>
    if k' = k then (k', v) :: rest else (k', v') :: updateAssoc rest k v

/-- The override loop of `_gen_environment` at the level of already-split
`(key, value)` pairs: apply each override in order by dict assignment. -/
def mergeEnv (base : List (String × String)) (ov : List (String × String)) :
    List (String × String) :=
  ov.foldl (fun m e => updateAssoc m e.1 e.2) base

/-- The override loop of `_gen_environment` on the raw `KEY=VALUE` strings:
split each on the first `=` (raising `ValueError` when there is none) and
apply it by dict assignment. -/
def applyEnvOverrides (env_vars : List (String × String)) :
    List String → Except String (List (String × String))
  | [] => Except.ok env_vars
  | e :: es =>
    match splitEqOnce e with
    | some kv => applyEnvOverrides (updateAssoc env_vars kv.1 kv.2) es
    | none => Except.error "ValueError: not enough values to unpack"

/-- Embeds `Compose._gen_environment`; `accelEnv` models the insertion-ordered
mapping returned by `get_accel_env_vars()`. -/
def Compose.genEnvironment (accelEnv : List (String × String)) (c : Compose) :
    Except String String :=
  let env_vars := accelEnv
  match
    (if optListTruthy c.args.env then applyEnvOverrides env_vars (c.args.env.getD [])
     else Except.ok env_vars) with
  | Except.error e => Except.error e
  | Except.ok env_vars =>
    if env_vars = [] then Except.ok ""
    else
      Except.ok (env_vars.foldl (fun s kv => s ++ "\n      - " ++ kv.1 ++ "=" ++ kv.2)
        "    environment:")

/-- Embeds `Compose._gen_gpu_deployment`: the fixed NVIDIA reservation stanza when
the substring `cuda` occurs in the image reference, empty otherwise. -/
def Compose.genGpuDeployment (c : Compose) : String :=
  if !(containsSub c.image "cuda") then ""
  else
    "    deploy:\n      resources:\n        reservations:\n          devices:\n            - driver: nvidia\n              count: all\n              capabilities: [gpu]"

/-- Embeds `Compose._gen_command`: empty when `exec_args` is empty, otherwise the
`command:` field holding `shlex.join(exec_args)`. -/
def Compose.genCommand (c : Compose) : String :=
  if c.exec_args = [] then ""
  else "    command: " ++ shlexJoin c.exec_args

/-- The file object `genfile` wraps the text in (`ramalama.file.PlainFile`
is outside the excerpt: a name plus text content; the diagnostic `print` is
a side effect outside the returned value). -/
structure PlainFile where
  name : String
  content : String
deriving DecidableEq, Repr

/-- Embeds `genfile`: the fixed output name and the content. -/
def genfile (content : String) : PlainFile :=
  { name := "docker-compose.yaml", content := content }

/-- The f-string template of `Compose.generate` before cleanup. -/
def Compose.rawContent (c : Compose) (ver : String)
    (volumes_string ports_string environment_string devices_string
     gpu_deploy_string command_string : String) : String :=
  "# Save this output to a 'docker-compose.yaml' file and run 'docker compose up'.\n#\n# Created with ramalama-"
    ++ (ver ++ ("\n\nservices:\n  " ++ (c.model_name ++ (":\n    container_name: "
    ++ (c.name ++ ("\n    image: " ++ (c.image ++ ("\n"
    ++ (volumes_string ++ ("\n" ++ (ports_string ++ ("\n" ++ (environment_string ++ ("\n"
    ++ (devices_string ++ ("\n" ++ (gpu_deploy_string ++ ("\n" ++ (command_string
    ++ "\n    restart: unless-stopped\n")))))))))))))))))))

/-- Embeds `Compose.generate`: build every section, assemble the template, strip
blank lines, wrap in the output file object.  The only failure path is the
`ValueError` from a malformed environment override. -/
def Compose.generate (fs : String → Bool) (accelEnv : List (String × String))
    (ver : String) (c : Compose) : Except String PlainFile :=
  let volumes_string := c.genVolumes fs
  let ports_string := c.genPorts
  match c.genEnvironment accelEnv with
  | Except.error e => Except.error e
  | Except.ok environment_string =>
    let devices_string := genDevices fs
    let gpu_deploy_string := c.genGpuDeployment
    let command_string := c.genCommand
    let content := c.rawContent ver volumes_string ports_string environment_string
      devices_string gpu_deploy_string command_string
    Except.ok (genfile (cleanupLines content))

/-- Is an `Except` a success? -/
def exceptOk {ε α : Type} : Except ε α → Bool
  | Except.ok _ => true
  | Except.error _ => false

/-- The file produced by a successful `generate`, or a dummy on error. -/
def fileD : Except String PlainFile → PlainFile
  | Except.ok f => f
  | Except.error _ => { name := "", content := "" }

/-! ### Predicates and observers used in the claim statements -/

/-- Does the char list `s` end with `p`? -/
def listEndsWith (s p : List Char) : Bool :=
  listStartsWith s.reverse p.reverse

/-- Python `s.endswith(p)` on strings. -/
def pyEndsWith (s p : String) : Bool :=
  listEndsWith s.toList p.toList

/-- A volume entry is read-only when it is a bind mount carrying the
`:ro` suffix (inside the closing quote) or an image-volume stanza carrying
`readonly: true`. -/
def readOnlyEntry (e : String) : Bool :=
  pyEndsWith e ":ro\"" || containsSub e "readonly: true"

/-- The iteration-order key list of an insertion-ordered mapping. -/
def keysOf (m : List (String × String)) : List String :=
  m.map Prod.fst

/-- The value the override sequence `ov` leaves for key `k`, starting from
default `d`: the value of the last override of `k`, or `d` if none. -/
def lastVal (k : String) (ov : List (String × String)) (d : String) : String :=
  ov.foldl (fun acc e => if e.1 = k then e.2 else acc) d

/-- First occurrences of the keys of a list that are not already in `seen`,
in the order given. -/
def firstOccs (seen : List String) : List String → List String
  | [] => []
  | k :: ks => if k ∈ seen then firstOccs seen ks else k :: firstOccs (seen ++ [k]) ks

/-- The first line of the generator's fixed header banner. -/
def firstHeaderLine : List Char :=
  "# Save this output to a 'docker-compose.yaml' file and run 'docker compose up'.".toList

/-! ### Concrete configurations used by witnesses and counterexamples -/

/-- A filesystem on which no path exists. -/
def fsNone : String → Bool := fun _ => false

/-- A filesystem on which every path exists. -/
def fsAll : String → Bool := fun _ => true

/-- Configuration with `port = "9090:8080"`. -/
def cPortSwap : Compose :=
  Compose.make "m" ("/models/m.gguf", "/mnt/models/model.file") none none
    ⟨none, "img", none, some "9090:8080", none⟩ []

/-- Configuration whose port is explicitly the empty string. -/
def cPortEmpty : Compose :=
  Compose.make "m" ("/models/m.gguf", "/mnt/models/model.file") none none
    ⟨none, "img", none, some "", none⟩ []

/-- Configuration with every optional input absent. -/
def cAllAbsent : Compose :=
  Compose.make "m" ("/models/m.gguf", "/mnt/models/model.file") none none
    ⟨none, "img", none, none, none⟩ []

/-- Configuration whose model source path carries an `https://` scheme. -/
def cSchemeHttps : Compose :=
  Compose.make "m" ("https://example.com/model.gguf", "/mnt/models/model.file") none none
    ⟨none, "img", none, none, none⟩ []

/-- Configuration with a CUDA-tagged image. -/
def cCuda : Compose :=
  Compose.make "m" ("/m", "/d") none none
    ⟨none, "myorg/llama-cuda:latest", none, none, none⟩ []

/-- Configuration with a CPU image. -/
def cCpu : Compose :=
  Compose.make "m" ("/m", "/d") none none
    ⟨none, "myorg/llama-cpu:latest", none, none, none⟩ []

/-- Configuration with an OCI-tagged retrieval-corpus source. -/
def cRagOci : Compose :=
  Compose.make "m" ("/m", "/d") none none
    ⟨none, "img", some "oci:quay.io/org/corpus:v1", none, none⟩ []

/-- Configuration whose retrieval-corpus source is a plain host path. -/
def cRagPath : Compose :=
  Compose.make "m" ("/m", "/d") none none
    ⟨none, "img", some "/srv/corpus", none, none⟩ []

/-- Configuration with every optional mount present. -/
def cFull : Compose :=
  Compose.make "m" ("/m", "/d") (some ("/ct", "/dct")) (some ("/mp", "/dmp"))
    ⟨some "svc", "img", some "oci:quay.io/org/corpus:v1", some "8081", some ["K=V"]⟩
    ["python", "-m", "server"]

/-- Configuration with the spec's round-trip example launch command. -/
def cCmd : Compose :=
  Compose.make "m" ("/m", "/d") none none
    ⟨none, "img", none, none, none⟩
    ["python", "-m", "server", "--flag", "value with spaces"]

/-! ### Basic lemmas about the string primitives -/

theorem strToList_append (s t : String) : (s ++ t).toList = s.toList ++ t.toList := by
  cases s; cases t; rfl

theorem strMk_toList (s : String) : String.mk s.toList = s := by
  cases s; rfl

theorem strToList_mk (l : List Char) : (String.mk l).toList = l := rfl

theorem listStartsWith_self_append (p r : List Char) : listStartsWith (p ++ r) p = true := by
  induction p with
  | nil => cases r <;> rfl
  | cons c cs ih => simp [listStartsWith, ih]

theorem listStartsWith_append_right (s p t : List Char)
    (h : listStartsWith s p = true) : listStartsWith (s ++ t) p = true := by
  induction p generalizing s with
  | nil => simp [listStartsWith]
  | cons c cs ih =>
    cases s with
    | nil => simp [listStartsWith] at h
    | cons d ds =>
      simp only [listStartsWith, Bool.and_eq_true, beq_iff_eq] at h
      simp only [List.cons_append, listStartsWith, Bool.and_eq_true, beq_iff_eq]
      exact ⟨h.1, ih ds h.2⟩

theorem pyStartsWith_self_append (p r : String) : pyStartsWith (p ++ r) p = true := by
  simp [pyStartsWith, strToList_append, listStartsWith_self_append]

theorem pyRemoveStart_self_append (p r : String) : pyRemoveStart (p ++ r) p = r := by
  simp only [pyRemoveStart, pyStartsWith_self_append, if_true, strToList_append]
  rw [List.drop_left, strMk_toList]

theorem pyRemoveStart_of_not_start (s p : String) (h : pyStartsWith s p = false) :
    pyRemoveStart s p = s := by
  simp [pyRemoveStart, h]

theorem splitFirstChar_eq_none (sep : Char) (cs : List Char) (h : sep ∉ cs) :
    splitFirstChar sep cs = none := by
  induction cs with
  | nil => rfl
  | cons c cs ih =>
    have hc : ¬ (c == sep) = true := by
      simp only [beq_iff_eq]
      intro hcc
      exact h (by simp [hcc])
    simp only [splitFirstChar, Bool.not_eq_true] at hc ⊢
    rw [hc, ih (fun hm => h (List.mem_cons_of_mem _ hm))]
    rfl

theorem splitFirstChar_append (sep : Char) (a b : List Char) (h : sep ∉ a) :
    splitFirstChar sep (a ++ sep :: b) = some (a, b) := by
  induction a with
  | nil => simp [splitFirstChar]
  | cons c cs ih =>
    have hc : ¬ (c == sep) = true := by
      simp only [beq_iff_eq]
      intro hcc
      exact h (by simp [hcc])
    have h' : sep ∉ cs := fun hm => h (List.mem_cons_of_mem _ hm)
    simp only [Bool.not_eq_true] at hc
    simp [splitFirstChar, hc, ih h']

theorem hasSubChars_append_right (s t n : List Char) (h : hasSubChars t n = true) :
    hasSubChars (s ++ t) n = true := by
  induction s with
  | nil => simpa using h
  | cons c cs ih =>
    simp only [List.cons_append, hasSubChars, List.append_eq, ih, Bool.or_true]

theorem containsSub_append_right (s t : String) (pat : String)
    (h : containsSub t pat = true) : containsSub (s ++ t) pat = true := by
  simp only [containsSub, strToList_append]
  exact hasSubChars_append_right _ _ _ h

theorem pyEndsWith_append_right (s t p : String) (h : pyEndsWith t p = true) :
    pyEndsWith (s ++ t) p = true := by
  simp only [pyEndsWith, listEndsWith, strToList_append, List.reverse_append] at h ⊢
  exact listStartsWith_append_right _ _ _ h

theorem pyEndsWith_refl (p : String) : pyEndsWith p p = true := by
  simpa [pyEndsWith, listEndsWith] using
    listStartsWith_self_append p.toList.reverse []

/-! ### Claim theorems: the GPU deployment heuristic (C6) and the URI
scheme handling of the model source (C5) -/

/-- Claim C5 counterexample: a model source path with an `https://` scheme
keeps its scheme in the emitted model mount — only `oci://` is ever
stripped, so the claim that every URI-scheme prefix is removed is false. -/
theorem claim_C5_counterexample :
    pyStartsWith cSchemeHttps.src_model_path "https://" = true ∧
      cSchemeHttps.genModelVolume =
        "\n      - \"https://example.com/model.gguf:/mnt/models/model.file:ro\"" := by
  constructor <;> decide

/-- Claim C5 amended: exactly the `oci://` prefix is stripped from the model
source path before it is used in the model volume mount; a source path that
does not start with `oci://` (any other URI scheme included) is used
verbatim. -/
theorem claim_C5_amended (p d mn : String) (ct mm : Option (String × String))
    (args : ComposeArgs) (ea : List String) :
    (Compose.make mn ("oci://" ++ p, d) ct mm args ea).src_model_path = p ∧
      (Compose.make mn ("oci://" ++ p, d) ct mm args ea).genModelVolume =
        "\n      - \"" ++ p ++ ":" ++ d ++ ":ro\"" ∧
      (pyStartsWith p "oci://" = false →
        (Compose.make mn (p, d) ct mm args ea).src_model_path = p) := by
  refine ⟨?_, ?_, ?_⟩
  · simp [Compose.make, pyRemoveStart_self_append]
  · simp [Compose.make, Compose.genModelVolume, pyRemoveStart_self_append]
  · intro h
    simp [Compose.make, pyRemoveStart_of_not_start _ _ h]

/-- Claim C5 amended, witness at a concrete input. -/
theorem claim_C5_amended_witness :
    (Compose.make "m" ("oci://" ++ "quay.io/org/model", "/d") none none
        ⟨none, "img", none, none, none⟩ []).src_model_path = "quay.io/org/model" ∧
      (Compose.make "m" ("https://example.com/m", "/d") none none
        ⟨none, "img", none, none, none⟩ []).src_model_path = "https://example.com/m" := by
  constructor
  · exact (claim_C5_amended "quay.io/org/model" "/d" "m" none none
      ⟨none, "img", none, none, none⟩ []).1
  · exact (claim_C5_amended "https://example.com/m" "/d" "m" none none
      ⟨none, "img", none, none, none⟩ []).2.2 (by decide)

/-- Claim C6: the GPU deployment-reservation stanza (driver `nvidia`, count
`all`, capability `gpu`) is emitted iff the substring `cuda` occurs in the
image reference; otherwise the deploy section is the empty string and thus
omitted. -/
theorem claim_C6 (c : Compose) :
    (containsSub c.image "cuda" = true →
      c.genGpuDeployment =
        "    deploy:\n      resources:\n        reservations:\n          devices:\n            - driver: nvidia\n              count: all\n              capabilities: [gpu]") ∧
      (containsSub c.image "cuda" = false → c.genGpuDeployment = "") := by
  constructor <;> intro h <;> simp [Compose.genGpuDeployment, h]

/-- Claim C6 witness: present for `myorg/llama-cuda:latest`, absent for
`myorg/llama-cpu:latest`. -/
theorem claim_C6_witness :
    cCuda.genGpuDeployment =
        "    deploy:\n      resources:\n        reservations:\n          devices:\n            - driver: nvidia\n              count: all\n              capabilities: [gpu]" ∧
      cCpu.genGpuDeployment = "" := by
  exact ⟨(claim_C6 cCuda).1 (by decide), (claim_C6 cCpu).2 (by decide)⟩

/-! ### Lemmas about `splitCharLimit` and the port section -/

theorem splitCharLimit_no_sep (sep : Char) (m : Nat) (cs : List Char) (h : sep ∉ cs) :
    splitCharLimit sep m cs = [cs] := by
  cases m with
  | zero => rfl
  | succ m => simp [splitCharLimit, splitFirstChar_eq_none sep cs h]

theorem splitCharLimit_two (sep : Char) (a b : List Char) (ha : sep ∉ a) (hb : sep ∉ b) :
    splitCharLimit sep 2 (a ++ sep :: b) = [a, b] := by
  simp [splitCharLimit, splitFirstChar_append sep a b ha,
    splitFirstChar_eq_none sep b hb]

theorem genEnvironment_env_none (c : Compose) (accelEnv : List (String × String))
    (he : c.args.env = none) :
    c.genEnvironment accelEnv =
      Except.ok (if accelEnv = [] then ""
        else accelEnv.foldl (fun s kv => s ++ "\n      - " ++ kv.1 ++ "=" ++ kv.2)
          "    environment:") := by
  simp [Compose.genEnvironment, he, optListTruthy]
  split <;> rfl

/-! ### Claim theorems: the port section (C1, C2) -/

/-- Claim C1 counterexample: with `port = "9090:8080"` the port section
emits `8080:9090`, not the claimed `9090:8080` — the first part of the
split becomes the *container* port and the second the *host* port. -/
theorem claim_C1_counterexample :
    cPortSwap.genPorts = "    ports:\n      - \"8080:9090\"" ∧
      cPortSwap.genPorts ≠ "    ports:\n      - \"9090:8080\"" := by
  constructor <;> decide

/-- Claim C1 amended: if no port is configured (or it is empty), the port
section emits exactly `8080:8080`; if the port is a bare colon-free string
`N`, it emits `N:N`; if the port has the form `A:B` (split on the first
colon), the *second* part is emitted as the host port and the *first* part
as the container port (so `port = "9090:8080"` yields `8080:9090`). -/
theorem claim_C1_amended (c : Compose) :
    ((c.args.port = none ∨ c.args.port = some "") →
      c.genPorts = "    ports:\n      - \"8080:8080\"") ∧
      (∀ s, c.args.port = some s → s ≠ "" → ':' ∉ s.toList →
        c.genPorts = "    ports:\n      - \"" ++ s ++ ":" ++ s ++ "\"") ∧
      (∀ hp cp, c.args.port = some (hp ++ ":" ++ cp) →
        ':' ∉ hp.toList → ':' ∉ cp.toList →
        c.genPorts = "    ports:\n      - \"" ++ cp ++ ":" ++ hp ++ "\"") := by
  refine ⟨?_, ?_, ?_⟩
  · intro h
    rcases h with h | h <;> simp [Compose.genPorts, h]
  · intro s hs hne hcol
    simp only [Compose.genPorts, hs, Option.getD_some]
    rw [if_neg hne, splitCharLimit_no_sep ':' 2 s.toList hcol]
    simp [strMk_toList]
  · intro hp cp hs hh hc
    have hcolon : (":" : String).toList = [':'] := by decide
    have hlist : (hp ++ ":" ++ cp).toList = hp.toList ++ ':' :: cp.toList := by
      rw [strToList_append, strToList_append, hcolon, List.append_assoc]
      rfl
    have hne : (hp ++ ":" ++ cp) ≠ "" := by
      intro h0
      have h1 := congrArg String.toList h0
      rw [hlist] at h1
      simp at h1
    simp only [Compose.genPorts, hs, Option.getD_some]
    rw [if_neg hne, hlist, splitCharLimit_two ':' hp.toList cp.toList hh hc]
    simp [strMk_toList]

/-- Claim C1 amended, witness: `port = "9090:8080"` emits `8080:9090`. -/
theorem claim_C1_amended_witness :
    cPortSwap.genPorts = "    ports:\n      - \"" ++ "8080" ++ ":" ++ "9090" ++ "\"" := by
  exact (claim_C1_amended cPortSwap).2.2 "9090" "8080" (by decide) (by decide) (by decide)

/-- Claim C2 counterexample: with the port explicitly set to the empty
string, `generate` does not raise a configuration-validation error — it
succeeds, and the port section silently falls back to the `8080:8080`
default. -/
theorem claim_C2_counterexample :
    exceptOk (cPortEmpty.generate fsNone [] "1.0") = true ∧
      cPortEmpty.genPorts = "    ports:\n      - \"8080:8080\"" := by
  constructor <;> decide

/-- Claim C2 amended: a port explicitly set to the empty string is treated
exactly like an unset port — the default `8080:8080` mapping is emitted and
(absent malformed environment overrides) `generate` succeeds rather than
raising. -/
theorem claim_C2_amended (c : Compose) (fs : String → Bool)
    (accelEnv : List (String × String)) (ver : String)
    (hp : c.args.port = some "") :
    c.genPorts = "    ports:\n      - \"8080:8080\"" ∧
      (c.args.env = none → exceptOk (c.generate fs accelEnv ver) = true) := by
  constructor
  · simp [Compose.genPorts, hp]
  · intro he
    simp only [Compose.generate, genEnvironment_env_none c accelEnv he]
    rfl

/-- Claim C2 amended, witness at a concrete configuration. -/
theorem claim_C2_amended_witness :
    cPortEmpty.genPorts = "    ports:\n      - \"8080:8080\"" ∧
      exceptOk (cPortEmpty.generate fsNone [] "1.0") = true := by
  have h := claim_C2_amended cPortEmpty fsNone [] "1.0" (by decide)
  exact ⟨h.1, h.2 (by decide)⟩

/-! ### Claim theorems: the retrieval-corpus mount (C4) and
absent optional inputs (C3) -/

/-- Claim C4: for a configured corpus source, an `oci:`-tagged reference
yields the long-form read-only image-volume stanza whose source is the
reference with the tag removed and whose target is the fixed corpus
directory; otherwise an existing host path yields the short-form
`path:target:ro` bind mount; otherwise nothing is emitted.  A truthy corpus
source always contributes its (possibly empty) entry to the volume list. -/
theorem claim_C4 (c : Compose) (fs : String → Bool) (r : String)
    (hr : c.args.rag = some r) :
    (pyStartsWith r "oci:" = true →
      c.genRagVolume fs =
        "\n      - type: image\n        source: " ++ pyRemoveStart r "oci:" ++
          "\n        target: " ++ RAG_DIR ++ "\n        image:\n          readonly: true") ∧
      (pyStartsWith r "oci:" = false → fs r = true →
        c.genRagVolume fs = "\n      - \"" ++ r ++ ":" ++ RAG_DIR ++ ":ro\"") ∧
      (pyStartsWith r "oci:" = false → fs r = false → c.genRagVolume fs = "") ∧
      (r ≠ "" → c.genRagVolume fs ∈ c.volumeEntries fs) := by
  refine ⟨?_, ?_, ?_, ?_⟩
  · intro h
    simp [Compose.genRagVolume, hr, h]
  · intro h hfs
    simp [Compose.genRagVolume, hr, h, hfs]
  · intro h hfs
    simp [Compose.genRagVolume, hr, h, hfs]
  · intro hne
    simp [Compose.volumeEntries, optStrTruthy, hr, hne]

/-- Claim C4 witness: the spec's own examples — an `oci:` reference yields
the image-volume stanza verbatim, a non-existent host path yields no
corpus mount. -/
theorem claim_C4_witness :
    cRagOci.genRagVolume fsNone =
        "\n      - type: image\n        source: quay.io/org/corpus:v1\n        target: /rag\n        image:\n          readonly: true" ∧
      cRagPath.genRagVolume fsNone = "" := by
  constructor
  · exact ((claim_C4 cRagOci fsNone "oci:quay.io/org/corpus:v1" (by decide)).1
      (by decide)).trans (by decide)
  · exact (claim_C4 cRagPath fsNone "/srv/corpus" (by decide)).2.2.1 (by decide) (by decide)

set_option maxRecDepth 40000 in
/-- Claim C3 counterexample: with every optional input absent (port
included), `generate` succeeds but the ports section is *not* omitted — it
is emitted with the `8080:8080` default, contradicting the claim that each
section driven by an absent optional input is simply omitted. -/
theorem claim_C3_counterexample :
    exceptOk (cAllAbsent.generate fsNone [] "1.0") = true ∧
      containsSub (fileD (cAllAbsent.generate fsNone [] "1.0")).content
        "    ports:\n      - \"8080:8080\"" = true := by
  constructor <;> decide

/-- Claim C3 amended: when every optional input is absent, `generate` never
raises; the corpus, chat-template and projector mounts are omitted (the
volume list holds exactly the model mount) and the command section is
omitted, but the port section is emitted with the `8080:8080` default
rather than being omitted. -/
theorem claim_C3_amended (mn src dest ver : String) (nm : Option String) (img : String)
    (fs : String → Bool) (accelEnv : List (String × String)) (c : Compose)
    (hc : c = Compose.make mn (src, dest) none none ⟨nm, img, none, none, none⟩ []) :
    exceptOk (c.generate fs accelEnv ver) = true ∧
      c.volumeEntries fs = [c.genModelVolume] ∧
      c.genCommand = "" ∧
      c.genPorts = "    ports:\n      - \"8080:8080\"" := by
  subst hc
  refine ⟨?_, ?_, ?_, ?_⟩
  · have hok := genEnvironment_env_none
      (Compose.make mn (src, dest) none none ⟨nm, img, none, none, none⟩ []) accelEnv
      (by simp [Compose.make])
    simp only [Compose.generate, hok]
    rfl
  · simp [Compose.volumeEntries, Compose.make, optStrTruthy]
  · simp [Compose.genCommand, Compose.make]
  · simp [Compose.genPorts, Compose.make]

/-- Claim C3 amended, witness at a concrete all-absent configuration. -/
theorem claim_C3_amended_witness :
    exceptOk (cAllAbsent.generate fsNone [] "1.0") = true ∧
      cAllAbsent.volumeEntries fsNone = [cAllAbsent.genModelVolume] ∧
      cAllAbsent.genCommand = "" ∧
      cAllAbsent.genPorts = "    ports:\n      - \"8080:8080\"" :=
  claim_C3_amended "m" "/models/m.gguf" "/mnt/models/model.file" "1.0" none "img"
    fsNone [] cAllAbsent rfl

/-! ### Claim theorems: every emitted mount is read-only (C8) -/

theorem pyEndsWith_append_self (s t : String) : pyEndsWith (s ++ t) t = true :=
  pyEndsWith_append_right s t t (pyEndsWith_refl t)

theorem readOnlyEntry_ro_suffix (s : String) : readOnlyEntry (s ++ ":ro\"") = true := by
  simp [readOnlyEntry, pyEndsWith_append_self]

/-- Claim C8: every non-empty volume entry the generator emits — model,
corpus, chat template, multimodal projector — is read-only: bind mounts
carry the `:ro` suffix and the image-volume stanza carries
`readonly: true`. -/
theorem claim_C8 (c : Compose) (fs : String → Bool) (e : String)
    (he : e ∈ c.volumeEntries fs) (hne : e ≠ "") :
    readOnlyEntry e = true := by
  simp only [Compose.volumeEntries, List.mem_append, List.mem_singleton] at he
  rcases he with ((h | h) | h) | h
  · subst h
    simp only [Compose.genModelVolume]
    exact readOnlyEntry_ro_suffix _
  · split at h
    · simp only [List.mem_singleton] at h
      subst h
      cases hoci : pyStartsWith (c.args.rag.getD "") "oci:" with
      | false =>
        cases hfs : fs (c.args.rag.getD "") with
        | false =>
          exfalso
          exact hne (by simp [Compose.genRagVolume, hoci, hfs])
        | true =>
          simp only [Compose.genRagVolume, hoci, hfs, Bool.false_eq_true, if_false, if_true]
          exact readOnlyEntry_ro_suffix _
      | true =>
        simp only [Compose.genRagVolume, hoci, if_true]
        simp only [readOnlyEntry]
        rw [containsSub_append_right _ _ _
          (by decide : containsSub "\n        image:\n          readonly: true" "readonly: true" = true)]
        simp
    · simp at h
  · split at h
    · simp only [List.mem_singleton] at h
      subst h
      simp only [Compose.genChatTemplateVolume]
      exact readOnlyEntry_ro_suffix _
    · simp at h
  · split at h
    · simp only [List.mem_singleton] at h
      subst h
      simp only [Compose.genMmprojVolume]
      exact readOnlyEntry_ro_suffix _
    · simp at h

/-- Claim C8 witness: the model mount and the OCI corpus stanza of a fully
populated configuration are both read-only. -/
theorem claim_C8_witness :
    readOnlyEntry cFull.genModelVolume = true ∧
      readOnlyEntry (cFull.genRagVolume fsAll) = true := by
  constructor
  · exact claim_C8 cFull fsAll _ (by decide) (by decide)
  · exact claim_C8 cFull fsAll _ (by decide) (by decide)

/-! ### Lemmas about line splitting and the cleanup pass (C9) -/

theorem splitLines_ne_nil (cs : List Char) : splitLines cs ≠ [] := by
  induction cs with
  | nil => simp [splitLines]
  | cons c rest ih =>
    by_cases hc : c = '\n'
    · simp [splitLines, hc]
    · simp only [splitLines, if_neg hc]
      cases h : splitLines rest with
      | nil => simp
      | cons l ls => simp

theorem splitLines_no_nl (w : List Char) (h : '\n' ∉ w) : splitLines w = [w] := by
  induction w with
  | nil => rfl
  | cons c cs ih =>
    have hc : c ≠ '\n' := fun hcc => h (by simp [hcc])
    have h' : '\n' ∉ cs := fun hm => h (List.mem_cons_of_mem _ hm)
    simp only [splitLines, if_neg hc, ih h']

theorem splitLines_newline_append (w r : List Char) (h : '\n' ∉ w) :
    splitLines (w ++ '\n' :: r) = w :: splitLines r := by
  induction w with
  | nil => simp [splitLines]
  | cons c cs ih =>
    have hc : c ≠ '\n' := fun hcc => h (by simp [hcc])
    have h' : '\n' ∉ cs := fun hm => h (List.mem_cons_of_mem _ hm)
    simp only [List.cons_append, splitLines, if_neg hc, List.append_eq, ih h']

theorem splitLines_mem_no_nl (cs : List Char) : ∀ l ∈ splitLines cs, '\n' ∉ l := by
  induction cs with
  | nil =>
    intro l hl
    simp [splitLines] at hl
    subst hl
    simp
  | cons c rest ih =>
    intro l hl
    by_cases hc : c = '\n'
    · simp [splitLines, hc] at hl
      rcases hl with h | h
      · subst h; simp
      · exact ih l h
    · simp only [splitLines, if_neg hc] at hl
      cases hsp : splitLines rest with
      | nil => exact absurd hsp (splitLines_ne_nil rest)
      | cons x xs =>
        rw [hsp] at hl
        rcases List.mem_cons.mp hl with h | h
        · subst h
          intro hmem
          rcases List.mem_cons.mp hmem with h1 | h1
          · exact hc h1.symm
          · exact ih x (by rw [hsp]; exact List.mem_cons_self x xs) h1
        · exact ih l (by rw [hsp]; exact List.mem_cons_of_mem _ h)

theorem splitLines_joinLines (L : List (List Char)) (hL : L ≠ [])
    (h : ∀ l ∈ L, '\n' ∉ l) : splitLines (joinLines L) = L := by
  induction L with
  | nil => exact absurd rfl hL
  | cons l ls ih =>
    cases ls with
    | nil => simpa [joinLines] using splitLines_no_nl l (h l (by simp))
    | cons l2 ls2 =>
      have hjoin : joinLines (l :: l2 :: ls2) = l ++ '\n' :: joinLines (l2 :: ls2) := rfl
      rw [hjoin, splitLines_newline_append l _ (h l (by simp)),
        ih (by simp) (fun x hx => h x (List.mem_cons_of_mem _ hx))]

theorem cleanupLines_lines (s : String)
    (hne : (splitLines s.toList).filter keepLine ≠ []) :
    splitLines (cleanupLines s).toList = (splitLines s.toList).filter keepLine := by
  simp only [cleanupLines, strToList_mk]
  exact splitLines_joinLines _ hne
    (fun l hl => splitLines_mem_no_nl s.toList l (List.mem_of_mem_filter hl))

theorem head_line_append (s t : String) (w tl : List Char)
    (hs : s.toList = w ++ '\n' :: tl) :
    (s ++ t).toList = w ++ '\n' :: (tl ++ t.toList) := by
  rw [strToList_append, hs, List.append_assoc]
  rfl

/-! ### Claim theorem: no emitted line is blank (C9) -/

/-- Claim C9: every line of the manifest text returned by a successful
`generate` has at least one non-whitespace character — no line is empty or
whitespace-only. -/
theorem claim_C9 (c : Compose) (fs : String → Bool)
    (accelEnv : List (String × String)) (ver : String) (f : PlainFile)
    (h : c.generate fs accelEnv ver = Except.ok f) :
    ∀ l ∈ splitLines f.content.toList, keepLine l = true := by
  cases henv : c.genEnvironment accelEnv with
  | error e =>
    simp only [Compose.generate, henv] at h
    exact absurd h (by simp)
  | ok env_str =>
    simp only [Compose.generate, henv] at h
    rw [Except.ok.injEq] at h
    subst h
    simp only [genfile]
    intro l hl
    have hla : ∀ t : String,
        ("# Save this output to a 'docker-compose.yaml' file and run 'docker compose up'.\n#\n# Created with ramalama-" ++ t).toList
          = firstHeaderLine ++ '\n' :: ("#\n# Created with ramalama-".toList ++ t.toList) :=
      fun t => head_line_append _ t firstHeaderLine _ (by decide)
    have hfil : (splitLines (c.rawContent ver (c.genVolumes fs) c.genPorts env_str
        (genDevices fs) c.genGpuDeployment c.genCommand).toList).filter keepLine ≠ [] := by
      simp only [Compose.rawContent]
      rw [hla, splitLines_newline_append _ _ (by decide),
        List.filter_cons_of_pos (by decide)]
      simp
    rw [cleanupLines_lines _ hfil] at hl
    exact List.of_mem_filter hl

set_option maxRecDepth 40000 in
/-- Claim C9 witness: every line of a concrete generated manifest is
non-blank. -/
theorem claim_C9_witness :
    (splitLines (fileD (cAllAbsent.generate fsNone [] "1.0")).content.toList).all
      keepLine = true := by
  rw [List.all_eq_true]
  intro l hl
  exact claim_C9 cAllAbsent fsNone [] "1.0" (fileD (cAllAbsent.generate fsNone [] "1.0"))
    (by rfl) l hl

/-! ### Lemmas about the shlex model and shell word splitting (C7) -/

theorem runSplit_append (st : SState) (a b : List Char) :
    runSplit st (a ++ b) = runSplit (runSplit st a) b := by
  induction a generalizing st with
  | nil => rfl
  | cons c cs ih => simp only [List.cons_append, runSplit, List.append_eq, ih]

theorem shlexSafeChar_props (c : Char) (h : shlexSafeChar c = true) :
    ¬(c = ' ' ∨ c = '\t' ∨ c = '\n') ∧ c ≠ '\'' ∧ c ≠ '"' ∧ c ≠ '\\' := by
  refine ⟨?_, ?_, ?_, ?_⟩
  · rintro (rfl | rfl | rfl) <;> exact absurd h (by decide)
  · rintro rfl; exact absurd h (by decide)
  · rintro rfl; exact absurd h (by decide)
  · rintro rfl; exact absurd h (by decide)

theorem runSplit_safe (w : List Char) (hsafe : w.all shlexSafeChar = true)
    (cur : List Char) (b : Bool) (acc : List (List Char)) :
    runSplit ⟨SMode.norm, cur, b, acc⟩ w =
      ⟨SMode.norm, cur ++ w, b || !w.isEmpty, acc⟩ := by
  induction w generalizing cur b with
  | nil => simp [runSplit]
  | cons c cs ih =>
    simp only [List.all_cons, Bool.and_eq_true] at hsafe
    obtain ⟨h1, h2, h3, h4⟩ := shlexSafeChar_props c hsafe.1
    have hstep : stepChar ⟨SMode.norm, cur, b, acc⟩ c = ⟨SMode.norm, cur ++ [c], true, acc⟩ := by
      simp [stepChar, h1, h2, h3, h4]
    rw [show runSplit ⟨SMode.norm, cur, b, acc⟩ (c :: cs) =
      runSplit (stepChar ⟨SMode.norm, cur, b, acc⟩ c) cs from rfl, hstep, ih hsafe.2]
    simp

theorem runSplit_quoteBody (w : List Char) : ∀ (cur : List Char) (acc : List (List Char)),
    runSplit ⟨SMode.single, cur, true, acc⟩ (quoteBody w) = ⟨SMode.single, cur ++ w, true, acc⟩ := by
  induction w with
  | nil => intro cur acc; simp [quoteBody, runSplit]
  | cons c cs ih =>
    intro cur acc
    by_cases hc : c = '\''
    · subst hc
      rw [show quoteBody ('\'' :: cs) = '\'' :: '"' :: '\'' :: '"' :: '\'' :: quoteBody cs from
        by simp [quoteBody, quoteRepl]]
      rw [show runSplit ⟨SMode.single, cur, true, acc⟩
          ('\'' :: '"' :: '\'' :: '"' :: '\'' :: quoteBody cs) =
          runSplit ⟨SMode.single, cur ++ ['\''], true, acc⟩ (quoteBody cs) from
        by simp [runSplit, stepChar]]
      rw [ih]
      simp
    · rw [show quoteBody (c :: cs) = c :: quoteBody cs from by simp [quoteBody, quoteRepl, hc]]
      rw [show runSplit ⟨SMode.single, cur, true, acc⟩ (c :: quoteBody cs) =
          runSplit ⟨SMode.single, cur ++ [c], true, acc⟩ (quoteBody cs) from
        by simp [runSplit, stepChar, hc]]
      rw [ih]
      simp

theorem runSplit_quote (s : List Char) (b : Bool) (acc : List (List Char)) :
    runSplit ⟨SMode.norm, [], b, acc⟩ (shlexQuoteChars s) = ⟨SMode.norm, s, true, acc⟩ := by
  by_cases hnil : s = []
  · subst hnil
    simp [shlexQuoteChars, runSplit, stepChar]
  · by_cases hsafe : s.all shlexSafeChar = true
    · simp only [shlexQuoteChars, if_neg hnil, if_pos hsafe]
      rw [runSplit_safe s hsafe]
      simp [hnil]
    · simp only [shlexQuoteChars, if_neg hnil, if_neg hsafe]
      rw [show (('\'' :: quoteBody s) ++ ['\'']) = '\'' :: (quoteBody s ++ ['\'']) from rfl]
      rw [show runSplit ⟨SMode.norm, [], b, acc⟩ ('\'' :: (quoteBody s ++ ['\''])) =
          runSplit ⟨SMode.single, [], true, acc⟩ (quoteBody s ++ ['\'']) from
        by simp [runSplit, stepChar]]
      rw [runSplit_append, runSplit_quoteBody s [] acc]
      simp [runSplit, stepChar]

theorem finish_join_quotes (ts : List (List Char)) : ∀ acc : List (List Char),
    finishSplit (runSplit ⟨SMode.norm, [], false, acc⟩ (joinWords (ts.map shlexQuoteChars))) =
      acc ++ ts := by
  induction ts with
  | nil => intro acc; simp [joinWords, runSplit, finishSplit]
  | cons t ts ih =>
    intro acc
    cases ts with
    | nil =>
      simp only [List.map_cons, List.map_nil, joinWords]
      rw [runSplit_quote]
      simp [finishSplit]
    | cons t2 ts2 =>
      rw [show joinWords ((t :: t2 :: ts2).map shlexQuoteChars) =
          shlexQuoteChars t ++ (' ' :: joinWords ((t2 :: ts2).map shlexQuoteChars)) from rfl]
      rw [runSplit_append, runSplit_quote]
      rw [show runSplit ⟨SMode.norm, t, true, acc⟩
          (' ' :: joinWords ((t2 :: ts2).map shlexQuoteChars)) =
          runSplit ⟨SMode.norm, [], false, acc ++ [t]⟩
            (joinWords ((t2 :: ts2).map shlexQuoteChars)) from by simp [runSplit, stepChar]]
      rw [ih (acc ++ [t])]
      simp

/-- The shlex round trip at the core of the spec's command property:
splitting a `shlexJoin`-ed token list with shell-word-splitting rules
recovers the token list exactly. -/
theorem shellSplit_shlexJoin (ts : List String) : shellSplit (shlexJoin ts) = ts := by
  simp only [shellSplit, shlexJoin, strToList_mk]
  rw [show ts.map (fun t => shlexQuoteChars t.toList) =
      (ts.map String.toList).map shlexQuoteChars from by rw [List.map_map]; rfl]
  rw [finish_join_quotes (ts.map String.toList) []]
  rw [List.nil_append, List.map_map]
  rw [show List.map (String.mk ∘ String.toList) ts = List.map id ts from
    List.map_congr_left (fun a _ => strMk_toList a)]
  exact List.map_id ts

/-! ### Claim theorem: the command round trip (C7) -/

/-- Claim C7: for an empty `exec_args` the command section is omitted; for
a non-empty `exec_args` the emitted command field holds the shell-quoted
join of the tokens, and re-parsing that joined string with
shell-word-splitting rules reproduces the original token list exactly. -/
theorem claim_C7 (c : Compose) :
    (c.exec_args = [] → c.genCommand = "") ∧
      (c.exec_args ≠ [] →
        c.genCommand = "    command: " ++ shlexJoin c.exec_args ∧
          shellSplit (shlexJoin c.exec_args) = c.exec_args) := by
  constructor
  · intro h
    simp [Compose.genCommand, h]
  · intro h
    exact ⟨by simp [Compose.genCommand, h], shellSplit_shlexJoin c.exec_args⟩

set_option maxRecDepth 40000 in
/-- Claim C7 witness: the spec's round-trip example, with the join shown
concretely (the whitespace-bearing token is single-quoted). -/
theorem claim_C7_witness :
    cCmd.genCommand = "    command: " ++ shlexJoin cCmd.exec_args ∧
      shellSplit (shlexJoin cCmd.exec_args) = cCmd.exec_args ∧
      shlexJoin cCmd.exec_args = "python -m server --flag 'value with spaces'" := by
  have h := (claim_C7 cCmd).2 (by decide)
  exact ⟨h.1, h.2, by decide⟩

/-! ### Lemmas about the environment merge (C10) -/

theorem mergeEnv_nil (base : List (String × String)) : mergeEnv base [] = base := rfl

theorem mergeEnv_cons (base : List (String × String)) (e : String × String)
    (ov : List (String × String)) :
    mergeEnv base (e :: ov) = mergeEnv (updateAssoc base e.1 e.2) ov := rfl

theorem lastVal_cons (k : String) (e : String × String) (ov : List (String × String))
    (d : String) : lastVal k (e :: ov) d = lastVal k ov (if e.1 = k then e.2 else d) := rfl

theorem lastVal_cons_ne (k : String) (e : String × String) (ov : List (String × String))
    (d : String) (h : e.1 ≠ k) : lastVal k (e :: ov) d = lastVal k ov d := by
  rw [lastVal_cons, if_neg h]

theorem keysOf_updateAssoc_mem (m : List (String × String)) (k v : String)
    (h : k ∈ keysOf m) : keysOf (updateAssoc m k v) = keysOf m := by
  induction m with
  | nil => simp [keysOf] at h
  | cons hd tl ih =>
    obtain ⟨k1, v1⟩ := hd
    by_cases hk : k1 = k
    · simp [updateAssoc, hk, keysOf]
    · have h' : k ∈ keysOf tl := by
        simp only [keysOf, List.map_cons, List.mem_cons] at h
        rcases h with h | h
        · exact absurd h.symm hk
        · simpa [keysOf] using h
      simp only [updateAssoc, if_neg hk, keysOf, List.map_cons]
      rw [show List.map Prod.fst (updateAssoc tl k v) = List.map Prod.fst tl from ih h']

theorem updateAssoc_not_mem (m : List (String × String)) (k v : String)
    (h : k ∉ keysOf m) : updateAssoc m k v = m ++ [(k, v)] := by
  induction m with
  | nil => rfl
  | cons hd tl ih =>
    obtain ⟨k1, v1⟩ := hd
    have hk : k1 ≠ k := by
      intro hkk
      exact h (by simp [keysOf, hkk])
    have h' : k ∉ keysOf tl := fun hm => h (by simp [keysOf] at hm ⊢; right; exact hm)
    simp [updateAssoc, hk, ih h']

theorem mapLast_cons_not_mem (m : List (String × String)) (k v : String)
    (ov : List (String × String)) (h : k ∉ keysOf m) :
    m.map (fun p => (p.1, lastVal p.1 ((k, v) :: ov) p.2)) =
      m.map (fun p => (p.1, lastVal p.1 ov p.2)) := by
  apply List.map_congr_left
  intro p hp
  have hne : k ≠ p.1 := by
    intro hkk
    exact h (by rw [hkk]; exact List.mem_map_of_mem Prod.fst hp)
  rw [lastVal_cons_ne p.1 (k, v) ov p.2 hne]

theorem mapLast_updateAssoc (m : List (String × String)) (k v : String)
    (ov : List (String × String)) (hm : k ∈ keysOf m) (hnd : (keysOf m).Nodup) :
    (updateAssoc m k v).map (fun p => (p.1, lastVal p.1 ov p.2)) =
      m.map (fun p => (p.1, lastVal p.1 ((k, v) :: ov) p.2)) := by
  induction m with
  | nil => simp [keysOf] at hm
  | cons hd tl ih =>
    obtain ⟨k1, v1⟩ := hd
    have hnd' : (k1 :: keysOf tl).Nodup := hnd
    have hnotin : k1 ∉ keysOf tl := (List.nodup_cons.mp hnd').1
    have hndtl : (keysOf tl).Nodup := (List.nodup_cons.mp hnd').2
    by_cases hk : k1 = k
    · simp only [updateAssoc, if_pos hk, List.map_cons]
      have hhead : lastVal k1 ((k, v) :: ov) v1 = lastVal k1 ov v := by
        rw [lastVal_cons, if_pos hk.symm]
      rw [hhead, mapLast_cons_not_mem tl k v ov (hk ▸ hnotin)]
    · have h' : k ∈ keysOf tl := by
        simp only [keysOf, List.map_cons, List.mem_cons] at hm
        rcases hm with h | h
        · exact absurd h.symm hk
        · simpa [keysOf] using h
      simp only [updateAssoc, if_neg hk, List.map_cons]
      rw [ih h' hndtl, lastVal_cons_ne k1 (k, v) ov v1 (Ne.symm hk)]

theorem keysOf_append_single (m : List (String × String)) (k v : String) :
    keysOf (m ++ [(k, v)]) = keysOf m ++ [k] := by
  simp [keysOf]

theorem keysOf_append_single_nodup (m : List (String × String)) (k v : String)
    (hnd : (keysOf m).Nodup) (hm : k ∉ keysOf m) :
    (keysOf (m ++ [(k, v)])).Nodup := by
  rw [keysOf_append_single]
  refine List.Nodup.append hnd (by simp) ?_
  intro a ha hb
  simp only [List.mem_singleton] at hb
  subst hb
  exact hm ha

theorem keysOf_mergeEnv (ov : List (String × String)) :
    ∀ base : List (String × String), (keysOf base).Nodup →
      keysOf (mergeEnv base ov) = keysOf base ++ firstOccs (keysOf base) (ov.map Prod.fst) := by
  induction ov with
  | nil => intro base _; simp [mergeEnv, firstOccs]
  | cons e ov ih =>
    intro base hnd
    obtain ⟨k, v⟩ := e
    rw [mergeEnv_cons]
    by_cases hm : k ∈ keysOf base
    · have hkeys := keysOf_updateAssoc_mem base k v hm
      rw [ih _ (by rw [hkeys]; exact hnd), hkeys]
      simp only [List.map_cons, firstOccs, if_pos hm]
    · have hupd := updateAssoc_not_mem base k v hm
      have hnd' : (keysOf (updateAssoc base k v)).Nodup := by
        rw [hupd]
        exact keysOf_append_single_nodup base k v hnd hm
      rw [ih _ hnd', hupd, keysOf_append_single]
      simp only [List.map_cons, firstOccs, if_neg hm]
      rw [List.append_assoc]
      rfl

theorem take_mergeEnv (ov : List (String × String)) :
    ∀ base : List (String × String), (keysOf base).Nodup →
      (mergeEnv base ov).take base.length =
        base.map (fun p => (p.1, lastVal p.1 ov p.2)) := by
  induction ov with
  | nil =>
    intro base _
    rw [mergeEnv_nil, List.take_length]
    have : ∀ p ∈ base, (p.1, lastVal p.1 ([] : List (String × String)) p.2) = p := by
      intro p _
      rfl
    rw [List.map_congr_left this]
    simp
  | cons e ov ih =>
    intro base hnd
    obtain ⟨k, v⟩ := e
    rw [mergeEnv_cons]
    by_cases hm : k ∈ keysOf base
    · have hkeys := keysOf_updateAssoc_mem base k v hm
      have hlen : (updateAssoc base k v).length = base.length := by
        have := congrArg List.length hkeys
        simpa [keysOf] using this
      have hnd' : (keysOf (updateAssoc base k v)).Nodup := by rw [hkeys]; exact hnd
      rw [← hlen, ih _ hnd', mapLast_updateAssoc base k v ov hm hnd]
    · have hupd := updateAssoc_not_mem base k v hm
      have hnd' : (keysOf (updateAssoc base k v)).Nodup := by
        rw [hupd]
        exact keysOf_append_single_nodup base k v hnd hm
      have H := ih _ hnd'
      rw [hupd] at H
      have hlen : (base ++ [(k, v)]).length = base.length + 1 := by simp
      rw [hlen] at H
      have H2 := congrArg (List.take base.length) H
      rw [List.take_take] at H2
      rw [Nat.min_eq_left (Nat.le_succ _)] at H2
      rw [hupd, H2, List.map_append]
      rw [show base.length = (base.map (fun p => (p.1, lastVal p.1 ov p.2))).length from
        (List.length_map _ _).symm]
      rw [List.take_left]
      exact (mapLast_cons_not_mem base k v ov hm).symm

/-! ### Claim theorem: environment merge ordering (C10) -/

/-- Claim C10: merging user overrides into the accelerator environment by
dict assignment keeps every accelerator key at its original position in the
iteration order (the first `|accel|` entries are the accelerator entries,
each with the value of its last override if one targets it), while keys new
to the mapping are appended after all accelerator entries, in first-given
order. -/
theorem claim_C10 (base ov : List (String × String)) (hnd : (keysOf base).Nodup) :
    keysOf (mergeEnv base ov) = keysOf base ++ firstOccs (keysOf base) (ov.map Prod.fst) ∧
      (mergeEnv base ov).take base.length =
        base.map (fun p => (p.1, lastVal p.1 ov p.2)) :=
  ⟨keysOf_mergeEnv ov base hnd, take_mergeEnv ov base hnd⟩

/-- Claim C10 witness: an override of the existing key stays in place with
its new value, the new key is appended. -/
theorem claim_C10_witness :
    keysOf (mergeEnv [("HSA_VISIBLE_DEVICES", "0"), ("CUDA_VISIBLE_DEVICES", "1")]
        [("CUDA_VISIBLE_DEVICES", "2"), ("NEW_KEY", "3")]) =
      keysOf [("HSA_VISIBLE_DEVICES", "0"), ("CUDA_VISIBLE_DEVICES", "1")] ++
        firstOccs (keysOf [("HSA_VISIBLE_DEVICES", "0"), ("CUDA_VISIBLE_DEVICES", "1")])
          ([("CUDA_VISIBLE_DEVICES", "2"), ("NEW_KEY", "3")].map Prod.fst) ∧
      (mergeEnv [("HSA_VISIBLE_DEVICES", "0"), ("CUDA_VISIBLE_DEVICES", "1")]
          [("CUDA_VISIBLE_DEVICES", "2"), ("NEW_KEY", "3")]).take 2 =
        [("HSA_VISIBLE_DEVICES", "0"), ("CUDA_VISIBLE_DEVICES", "1")].map
          (fun p => (p.1, lastVal p.1 [("CUDA_VISIBLE_DEVICES", "2"), ("NEW_KEY", "3")] p.2)) :=
  claim_C10 [("HSA_VISIBLE_DEVICES", "0"), ("CUDA_VISIBLE_DEVICES", "1")]
    [("CUDA_VISIBLE_DEVICES", "2"), ("NEW_KEY", "3")] (by decide)

end RamalamaCompose
